import Mathlib

/-!
Shallow embedding of the delta diff-viewer core, following `src/main.rs` for the
entry-point behaviour and the design spec for the algorithmic modules
(`edits`, `align`, `wrapping`, `parse_style`) that are declared in `main.rs`
but whose files are not part of this source snapshot.
-/

/-- An `std::io::Error` as inspected by `run_app` (src/main.rs): the only thing
`run_app` looks at is whether `error.kind()` is `ErrorKind::BrokenPipe`; any other
kind is carried together with its display message. -/
inductive IOErr where
  | brokenPipe : IOErr
  | other : String → IOErr
deriving DecidableEq

/-- Observable result of `run_app` (src/main.rs:78): an `Ok(code)` return value
(`main` passes it to `process::exit`), an `Err` propagated by the `?` operator,
or a direct `process::exit(2)` performed by `fatal`. -/
inductive Outcome where
  | ok : Int → Outcome
  | err : IOErr → Outcome
  | fatalExit : Int → Outcome
deriving DecidableEq

/-- The fields of `cli::Opt` / `Config` that `run_app` consults, with the results of
the external operations it invokes (subcommand bodies, `show_config`, the `delta`
pipeline itself) supplied as data, since their implementations live outside
src/main.rs. `subcommand` is `some r` when one of the subcommand flags
(generate_completion, list_languages, list_syntax_themes, show_syntax_themes,
show_themes, show_colors, parse_ansi) is set and the chosen subcommand returned `r`.
`files` models `(config.minus_file, config.plus_file)` both being present. -/
structure DeltaOpt where
  subcommand : Option (Except IOErr Unit)
  show_config : Bool
  showConfigResult : Except IOErr Unit
  files : Option (String × String)
  filesDiffer : Bool
  stdinIsTerminal : Bool
  deltaResult : Except IOErr Unit

/-- `cli::Opt::from_args_and_git_config` result (src/main.rs:86): version and help
short-circuit; `delta` carries the parsed options. The `Except` on version/help is
the result of writing the message to stdout. -/
inductive Call where
  | version : String → Except IOErr Unit → Call
  | help : String → Except IOErr Unit → Call
  | delta : DeltaOpt → Call

/-- `fatal` (src/main.rs:38): prints the message to stderr and calls
`process::exit(2)` ("use 2 for error because diff uses 0 and 1 for non-error"). -/
def fatal (errmsg : String) : Outcome × List String :=
  (.fatalExit 2, [errmsg])

/-- Modelled from the spec: `Config::error_exit_code` is defined in the `config`
module, which is not part of this snapshot; the comment at src/main.rs:45 records
its value ("As in Config::error_exit_code: use 2 for error because diff uses 0 and
1 for non-error"). -/
def errorExitCode : Int := 2

/-- Modelled from the spec: `subcommands::diff` is not part of this snapshot; the
doc comment of `run_app` (src/main.rs:75) records its exit-code contract: "1 is
used to report that two files differ when delta is called with two positional
arguments and without standard input", 0 when they do not differ. -/
def diffExitCode (filesDiffer : Bool) : Int :=
  if filesDiffer then 1 else 0

/-- The usage hint printed to stderr when stdin is a terminal (src/main.rs:162). -/
def usageMessage : String :=
  "The main way to use delta is to configure it as the pager for git: see https://github.com/dandavison/delta#get-started. You can also use delta to diff two files: `delta file_A file_B`."

/-- Shallow embedding of `run_app` (src/main.rs:78-178). The first component is the
observable result, the second collects the lines printed to stderr, in order.
Mirrors the source's control flow: version/help first, then the subcommand block
(src/main.rs:121-129: ignore `BrokenPipe`, `fatal` on any other error, return
`Ok(0)`), then `show_config` (whose `?` propagates errors), then the two-file
diff subcommand, then the stdin-is-terminal check, and finally the main `delta`
pipeline (src/main.rs:171-177: `BrokenPipe` returns `Ok(0)` at once, any other
error is printed with `eprintln!` and the function still falls through to
`Ok(0)`). -/
def run_app (c : Call) : Outcome × List String :=
  match c with
  | .version _ w =>
    match w with
    | .error e => (.err e, [])
    | .ok _ => (.ok 0, [])
  | .help _ w =>
    match w with
    | .error e => (.err e, [])
    | .ok _ => (.ok 0, [])
  | .delta o =>
    match o.subcommand with
    | some r =>
      match r with
      | .error .brokenPipe => (.ok 0, [])
      | .error (.other msg) => fatal msg
      | .ok _ => (.ok 0, [])
    | none =>
      if o.show_config then
        match o.showConfigResult with
        | .error e => (.err e, [])
        | .ok _ => (.ok 0, [])
      else
        match o.files with
        | some _ => (.ok (diffExitCode o.filesDiffer), [])
        | none =>
          if o.stdinIsTerminal then
            (.ok errorExitCode, [usageMessage])
          else
            match o.deltaResult with
            | .error .brokenPipe => (.ok 0, [])
            | .error (.other msg) => (.ok 0, [msg])
            | .ok _ => (.ok 0, [])

/-- Modelled from the spec (§5, §6, Scenario E; the `delta` module is declared in
src/main.rs but its file is not part of this snapshot): the delta pipeline's main
loop over its forward-only input line sequence. For each input line it renders one
physical output line (via `f`) and writes it to the sink; `sink k` is the result
of the k-th write, so a sink that closes early fails some write with
`BrokenPipe`. A failed write stops the loop at once: the pipeline returns the
write error, the outputs actually written, and the input lines left unread. -/
def runDelta (f : String → String) (sink : Nat → Except IOErr Unit) :
    Nat → List String → Except IOErr Unit × List String × List String
  | _, [] => (.ok (), [], [])
  | k, l :: rest =>
    match sink k with
    | .error e => (.error e, [], rest)
    | .ok _ =>
      match runDelta f sink (k + 1) rest with
      | (r, outs, rem) => (r, f l :: outs, rem)

/-- A concrete sink that accepts two writes and then closes (broken pipe). -/
def c1Sink (k : Nat) : Except IOErr Unit :=
  if k < 2 then .ok () else .error .brokenPipe

/-- A concrete four-line input stream. -/
def c1Input : List String := ["line 1", "line 2", "line 3", "line 4"]

/-- Modelled from the spec: events of the wider system (§5). The core pipeline is
single-threaded; the only concurrency is the best-effort background task started by
`main` (src/main.rs:63, `start_determining_calling_process_in_thread`, whose module
is not part of this snapshot). A `taskWrites` event is the background task writing
its result to the write-once cell; a `pipelineStep` event is the pipeline consuming
one input line and emitting output for it. -/
inductive SysEvent where
  | taskWrites : String → SysEvent
  | pipelineStep : SysEvent
deriving DecidableEq

/-- Modelled from the spec: system state — the write-once calling-process cell
(consulted later only for diagnostics), the pipeline output emitted so far, and
the remaining input lines. -/
structure SysState where
  cell : Option String
  out : List String
  input : List String
deriving DecidableEq

/-- Modelled from the spec: one interleaving step. The background task writes the
cell only if it is still unset (write-once) and touches nothing else; a pipeline
step renders one input line (via the supplied rendering function `f`) and never
reads or writes the cell. -/
def sysStep (f : String → String) : SysEvent → SysState → SysState
  | .taskWrites v, s =>
    match s.cell with
    | none => ⟨some v, s.out, s.input⟩
    | some _ => s
  | .pipelineStep, s =>
    match s.input with
    | [] => s
    | l :: rest => ⟨s.cell, s.out ++ [f l], rest⟩

/-- Modelled from the spec: run an interleaving of background-task and pipeline
events from a starting state. -/
def runEvents (f : String → String) (evs : List SysEvent) (s : SysState) : SysState :=
  match evs with
  | [] => s
  | e :: rest => runEvents f rest (sysStep f e s)

/-- Whether an event is a pipeline step (used to erase the background task from an
interleaving). -/
def SysEvent.isPipelineStep : SysEvent → Bool
  | .pipelineStep => true
  | .taskWrites _ => false

/-- Modelled from the spec: EditOp (§3, §4.3; the `edits` module is declared in
src/main.rs but its file is not part of this snapshot). Each op carries the token
run(s) it covers: an `equal` run covers the same tokens in the minus and the plus
sequence; `replace` covers a run of minus tokens and a run of plus tokens. -/
inductive EditOp (α : Type) where
  | equal : List α → EditOp α
  | delete : List α → EditOp α
  | insert : List α → EditOp α
  | replace : List α → List α → EditOp α
deriving DecidableEq

/-- The minus-sequence tokens covered by one op. -/
def EditOp.minusToks {α : Type} : EditOp α → List α
  | .equal ts => ts
  | .delete ts => ts
  | .insert _ => []
  | .replace ms _ => ms

/-- The plus-sequence tokens covered by one op. -/
def EditOp.plusToks {α : Type} : EditOp α → List α
  | .equal ts => ts
  | .delete _ => []
  | .insert ts => ts
  | .replace _ ps => ps

/-- Concatenation, in order, of the minus tokens covered by an op list. -/
def minusConcat {α : Type} : List (EditOp α) → List α
  | [] => []
  | op :: rest => op.minusToks ++ minusConcat rest

/-- Concatenation, in order, of the plus tokens covered by an op list. -/
def plusConcat {α : Type} : List (EditOp α) → List α
  | [] => []
  | op :: rest => op.plusToks ++ plusConcat rest

/-- Modelled from the spec: one step of the edit script before grouping into runs —
a single token kept, deleted, or inserted. -/
inductive DiffAtom (α : Type) where
  | eq : α → DiffAtom α
  | del : α → DiffAtom α
  | ins : α → DiffAtom α
deriving DecidableEq

/-- Minus token of one atom (`eq` and `del` consume a minus token). -/
def DiffAtom.minusPart {α : Type} : DiffAtom α → List α
  | .eq a => [a]
  | .del a => [a]
  | .ins _ => []

/-- Plus token of one atom (`eq` and `ins` consume a plus token). -/
def DiffAtom.plusPart {α : Type} : DiffAtom α → List α
  | .eq a => [a]
  | .del _ => []
  | .ins a => [a]

/-- Minus tokens of an atom list, in order. -/
def atomsMinus {α : Type} : List (DiffAtom α) → List α
  | [] => []
  | a :: rest => a.minusPart ++ atomsMinus rest

/-- Plus tokens of an atom list, in order. -/
def atomsPlus {α : Type} : List (DiffAtom α) → List α
  | [] => []
  | a :: rest => a.plusPart ++ atomsPlus rest

/-- Length of a longest common subsequence of two token lists (the quantity the
LCS-based shortest-edit-script computation of §4.3 maximizes). -/
def lcsLen {α : Type} [DecidableEq α] : List α → List α → Nat
  | [], _ => 0
  | _ :: _, [] => 0
  | a :: as, b :: bs =>
    if a = b then lcsLen as bs + 1
    else max (lcsLen as (b :: bs)) (lcsLen (a :: as) bs)
termination_by l₁ l₂ => l₁.length + l₂.length

/-- Modelled from the spec (§4.3): the LCS-based shortest edit script over tokens,
as an atom list: equal heads are kept; otherwise delete or insert, whichever keeps
the longer common subsequence (deleting first on ties). -/
def diffAtoms {α : Type} [DecidableEq α] : List α → List α → List (DiffAtom α)
  | [], ps => ps.map .ins
  | m :: ms, [] => (m :: ms).map .del
  | m :: ms, p :: ps =>
    if m = p then .eq m :: diffAtoms ms ps
    else if lcsLen (m :: ms) ps ≤ lcsLen ms (p :: ps) then
      .del m :: diffAtoms ms (p :: ps)
    else
      .ins p :: diffAtoms (m :: ms) ps
termination_by l₁ l₂ => l₁.length + l₂.length

/-- Modelled from the spec (§4.3): fold one atom onto a grouped op list — extend a
run of the same kind, and report an `insert` adjacent to a `delete` (or vice versa)
at the same alignment position as a single `replace` covering both ranges. -/
def pushAtom {α : Type} : DiffAtom α → List (EditOp α) → List (EditOp α)
  | .eq a, .equal ts :: ops => .equal (a :: ts) :: ops
  | .eq a, ops => .equal [a] :: ops
  | .del a, .delete ts :: ops => .delete (a :: ts) :: ops
  | .del a, .insert ps :: ops => .replace [a] ps :: ops
  | .del a, .replace ms ps :: ops => .replace (a :: ms) ps :: ops
  | .del a, ops => .delete [a] :: ops
  | .ins a, .insert ts :: ops => .insert (a :: ts) :: ops
  | .ins a, .delete ms :: ops => .replace ms [a] :: ops
  | .ins a, .replace ms ps :: ops => .replace ms (a :: ps) :: ops
  | .ins a, ops => .insert [a] :: ops

/-- Modelled from the spec (§4.3): group the atom script into alternating
`Equal`/`Insert`/`Delete` runs, merging adjacent delete/insert runs into `Replace`. -/
def groupOps {α : Type} (atoms : List (DiffAtom α)) : List (EditOp α) :=
  atoms.foldr pushAtom []

/-- Whether the op is an `equal` run. -/
def EditOp.isEqualOp {α : Type} : EditOp α → Bool
  | .equal _ => true
  | _ => false

/-- Whether the op is an `equal` run shorter than the configured minimum token
length `k` (§4.3: such runs get coalesced into a neighbouring non-equal run). -/
def shortEqual {α : Type} (k : Nat) : EditOp α → Bool
  | .equal ts => decide (ts.length < k)
  | _ => false

/-- Merge two adjacent ops into a single `replace` keeping the widest span on both
sides (§4.3: "the merged run keeps the widest span, re-tagged as Replace"). -/
def mergeOps {α : Type} (e n : EditOp α) : EditOp α :=
  .replace (e.minusToks ++ n.minusToks) (e.plusToks ++ n.plusToks)

/-- Modelled from the spec (§4.3): the deterministic coalescing post-pass — any
`equal` run shorter than the minimum token length `k` is merged into the adjacent
non-equal run that follows it, re-tagged `replace`; a short equal run with no
following non-equal run is kept. -/
def coalesceOps {α : Type} (k : Nat) : List (EditOp α) → List (EditOp α)
  | [] => []
  | op :: rest =>
    let r := coalesceOps k rest
    if shortEqual k op then
      match r with
      | [] => [op]
      | next :: rest' =>
        if next.isEqualOp then op :: next :: rest' else mergeOps op next :: rest'
    else
      op :: r

/-- Modelled from the spec (§4.3): the full EditOpComputer for one paired line —
shortest edit script over tokens, grouped into runs, then the coalescing post-pass
with minimum equal-run length `k`. -/
def computeEditOps {α : Type} [DecidableEq α] (k : Nat) (ms ps : List α) : List (EditOp α) :=
  coalesceOps k (groupOps (diffAtoms ms ps))

/-- Modelled from the spec (§4.2; the `align` module is declared in src/main.rs but
its file is not part of this snapshot): minimal total cost of a global alignment
(Needleman-Wunsch) of the minus-line suffix against the plus-line suffix, with
match cost `d Mi Pj` and a fixed gap cost `G` for skipping a minus or a plus line. -/
def nwCost {α β : Type} (d : α → β → Nat) (G : Nat) : List α → List β → Nat
  | [], ps => G * ps.length
  | m :: ms, [] => G * (m :: ms).length
  | m :: ms, p :: ps =>
    min (d m p + nwCost d G ms ps)
      (min (G + nwCost d G ms (p :: ps)) (G + nwCost d G (m :: ms) ps))
termination_by l₁ l₂ => l₁.length + l₂.length

/-- Modelled from the spec (§4.2): traceback of the optimal alignment path starting
at indices `(i, j)`. A diagonal move is taken when it attains the minimum; it yields
the pair `(i, j)` only when its match cost is strictly better than two independent
gaps (`d m p < 2 * G`) — otherwise the aligned pair is rejected and left unpaired. -/
def nwPairs {α β : Type} (d : α → β → Nat) (G : Nat) :
    Nat → Nat → List α → List β → List (Nat × Nat)
  | _, _, [], _ => []
  | _, _, _ :: _, [] => []
  | i, j, m :: ms, p :: ps =>
    if d m p + nwCost d G ms ps ≤ G + nwCost d G ms (p :: ps) ∧
        d m p + nwCost d G ms ps ≤ G + nwCost d G (m :: ms) ps then
      (if d m p < 2 * G then [(i, j)] else []) ++ nwPairs d G (i + 1) (j + 1) ms ps
    else if G + nwCost d G ms (p :: ps) ≤ G + nwCost d G (m :: ms) ps then
      nwPairs d G (i + 1) j ms (p :: ps)
    else
      nwPairs d G i (j + 1) (m :: ms) ps
termination_by _ _ l₁ l₂ => l₁.length + l₂.length

/-- Modelled from the spec (§4.2): the LinePairer's set of LinePairs for one
ChangeBlock — minus-line indices paired with plus-line indices by the optimal
order-preserving alignment. -/
def linePairs {α β : Type} (d : α → β → Nat) (G : Nat) (ms : List α) (ps : List β) :
    List (Nat × Nat) :=
  nwPairs d G 0 0 ms ps

/-- Modelled from the spec (§3, §4.6; the `wrapping` module is declared in
src/main.rs but its file is not part of this snapshot): a display cluster — the
smallest unit of text that renders as one unbreakable visual character. It may
span several code points (combining marks) and has a display width (0 for
zero-width, 2 for wide, 1 otherwise); the wrapper never breaks inside one. -/
structure DisplayCluster where
  cps : List Nat
  width : Nat
deriving DecidableEq

/-- Total display width of a physical line of clusters. -/
def lineWidth : List DisplayCluster → Nat
  | [] => 0
  | c :: rest => c.width + lineWidth rest

/-- Modelled from the spec (§4.6): the wrapping walk, generic in the item type with
an item-width function `w` (styled items carry a zero-width style alongside their
cluster). `col` is the display width accumulated on the current physical line and
`cur` holds its items in reverse. When the next item would make the line exceed
`W` (`col + w c > W`) and the current line is nonempty, the line is terminated and
the item starts the next physical line; an item wider than `W` arriving on an
empty line is emitted on that line (a physical line always carries at least one
item). -/
def wrapAuxG {γ : Type} (w : γ → Nat) (W : Nat) : List γ → Nat → List γ → List (List γ)
  | [], _, cur => [cur.reverse]
  | c :: rest, col, cur =>
    if W < col + w c ∧ cur.isEmpty = false then
      cur.reverse :: wrapAuxG w W rest (w c) [c]
    else
      wrapAuxG w W rest (col + w c) (c :: cur)

/-- Modelled from the spec (§4.6): wrap a plain (style-free) line of display
clusters to target width `W`. -/
def wrapLine (W : Nat) (cs : List DisplayCluster) : List (List DisplayCluster) :=
  wrapAuxG DisplayCluster.width W cs 0 []

/-- Modelled from the spec (§4.4): the fixed enumerated set of attribute tokens. -/
inductive StyleAttr where
  | bold
  | underline
  | italic
  | strikethrough
  | dim
  | reverse
  | blink
deriving DecidableEq

/-- Modelled from the spec (§4.4): a recognized color form — named color, ANSI 256
index, 24-bit RGB, the literal "auto" (terminal default) or "none"
(unset/inherit, i.e. explicitly cleared). -/
inductive ColorValue where
  | named : String → ColorValue
  | ansi256 : Nat → ColorValue
  | rgb : Nat → Nat → Nat → ColorValue
  | auto : ColorValue
  | cleared : ColorValue
deriving DecidableEq

/-- Modelled from the spec (§3): a Style — foreground, background (each with an
explicit unset state, `Option.none`) and a set of attributes. -/
structure Style where
  foreground : Option ColorValue
  background : Option ColorValue
  attrs : List StyleAttr
deriving DecidableEq

/-- The default Style: nothing specified. -/
def defaultStyle : Style := ⟨none, none, []⟩

/-- Modelled from the spec (§4.6): wrap a styled line — a sequence of display
clusters each carrying its resolved Style — to target width `W`. The style
component carries no display width, so only the cluster widths drive the walk. -/
def wrapStyled (W : Nat) (l : List (DisplayCluster × Style)) :
    List (List (DisplayCluster × Style)) :=
  wrapAuxG (fun r => r.1.width) W l 0 []

/-- Strip all style from a styled line, leaving the plain cluster text. -/
def stripStyle (l : List (DisplayCluster × Style)) : List DisplayCluster :=
  l.map Prod.fst

/-- Split a character list into whitespace-separated tokens (accumulator holds the
current token in reverse). -/
def splitWSAux : List Char → List Char → List (List Char)
  | [], acc => if acc = [] then [] else [acc.reverse]
  | c :: rest, acc =>
    if c = ' ' then
      if acc = [] then splitWSAux rest [] else acc.reverse :: splitWSAux rest []
    else
      splitWSAux rest (c :: acc)

/-- Modelled from the spec (§6): a style specification is a sequence of
whitespace-separated tokens. -/
def splitWS (s : List Char) : List (List Char) := splitWSAux s []

/-- Split a token at its first ':' into `role` and `value`, if it has one. -/
def splitColonAux : List Char → List Char → Option (List Char × List Char)
  | [], _ => none
  | c :: rest, acc => if c = ':' then some (acc.reverse, rest) else splitColonAux rest (c :: acc)

/-- Split a token at its first ':' into `role` and `value`, if it has one. -/
def splitColon (t : List Char) : Option (List Char × List Char) := splitColonAux t []

/-- Whether a character is a decimal digit. -/
def isDigitChar (c : Char) : Bool := decide ('0' ≤ c ∧ c ≤ '9')

/-- Numeric value of a decimal digit character. -/
def digitVal (c : Char) : Nat := c.toNat - '0'.toNat

/-- Parse a run of decimal digits (accumulating), failing on any non-digit. -/
def parseNatAux : List Char → Nat → Option Nat
  | [], acc => some acc
  | c :: rest, acc =>
    if isDigitChar c then parseNatAux rest (acc * 10 + digitVal c) else none

/-- Parse a nonempty all-digit token as a number. -/
def parseNatChars (l : List Char) : Option Nat :=
  if l = [] then none else parseNatAux l 0

/-- Hexadecimal value of a character, if it is a hex digit. -/
def hexVal (c : Char) : Option Nat :=
  if isDigitChar c then some (digitVal c)
  else if 'a' ≤ c ∧ c ≤ 'f' then some (c.toNat - 'a'.toNat + 10)
  else if 'A' ≤ c ∧ c ≤ 'F' then some (c.toNat - 'A'.toNat + 10)
  else none

/-- Two hex digits as a byte value. -/
def hexByte (c₁ c₂ : Char) : Option Nat :=
  match hexVal c₁, hexVal c₂ with
  | some a, some b => some (a * 16 + b)
  | _, _ => none

/-- Modelled from the spec (§4.4): the named colors the mini-language recognizes. -/
def namedColorNames : List (List Char) :=
  ["black".data, "red".data, "green".data, "yellow".data, "blue".data, "magenta".data,
    "cyan".data, "white".data]

/-- Modelled from the spec (§4.4): parse a color value — "auto", "none", a named
color, an ANSI 256 index, or a 24-bit RGB value written "#RRGGBB". -/
def parseColorValue (v : List Char) : Option ColorValue :=
  if v = "auto".data then some .auto
  else if v = "none".data then some .cleared
  else if v ∈ namedColorNames then some (.named (String.mk v))
  else
    match parseNatChars v with
    | some n => if n < 256 then some (.ansi256 n) else none
    | none =>
      match v with
      | '#' :: r₁ :: r₂ :: g₁ :: g₂ :: b₁ :: b₂ :: [] =>
        match hexByte r₁ r₂, hexByte g₁ g₂, hexByte b₁ b₂ with
        | some r, some g, some b => some (.rgb r g b)
        | _, _, _ => none
      | _ => none

/-- Modelled from the spec (§4.4): parse an attribute keyword token. -/
def parseAttr (t : List Char) : Option StyleAttr :=
  if t = "bold".data then some .bold
  else if t = "underline".data then some .underline
  else if t = "italic".data then some .italic
  else if t = "strikethrough".data then some .strikethrough
  else if t = "dim".data then some .dim
  else if t = "reverse".data then some .reverse
  else if t = "blink".data then some .blink
  else none

/-- Modelled from the spec (§4.4): the error a malformed style specification fails
with, carrying the offending token. -/
inductive StyleParseError where
  | badToken : String → StyleParseError
deriving DecidableEq

/-- Modelled from the spec (§6): apply one token to the style built so far — an
attribute keyword adds that attribute; a `role:value` pair sets the foreground or
background color; anything else is a `StyleParseError`. Later tokens override
earlier ones for the same field. -/
def applyToken (st : Style) (t : List Char) : Except StyleParseError Style :=
  match parseAttr t with
  | some a => .ok ⟨st.foreground, st.background, st.attrs ++ [a]⟩
  | none =>
    match splitColon t with
    | some (role, value) =>
      if role = "fg".data then
        match parseColorValue value with
        | some c => .ok ⟨some c, st.background, st.attrs⟩
        | none => .error (.badToken (String.mk t))
      else if role = "bg".data then
        match parseColorValue value with
        | some c => .ok ⟨st.foreground, some c, st.attrs⟩
        | none => .error (.badToken (String.mk t))
      else .error (.badToken (String.mk t))
    | none => .error (.badToken (String.mk t))

/-- Left-to-right fold of the tokens of a style specification. -/
def parseTokens (st : Style) : List (List Char) → Except StyleParseError Style
  | [] => .ok st
  | t :: rest =>
    match applyToken st t with
    | .ok st' => parseTokens st' rest
    | .error e => .error e

/-- Modelled from the spec (§4.4, §6; the `parse_style` module is declared in
src/main.rs but its file is not part of this snapshot): parse a style
specification string into a Style, failing with a `StyleParseError` on the first
malformed token. -/
def parse_style (s : String) : Except StyleParseError Style :=
  parseTokens defaultStyle (splitWS s.data)

/-- The warning text emitted when a style specification is downgraded. -/
def styleWarning : StyleParseError → String
  | .badToken t => "Invalid style string: " ++ t

/-- Modelled from the spec (§4.4): the caller-side downgrade — a malformed spec
falls back to the default Style plus a non-fatal warning; a well-formed spec gives
its Style and no warning. Total: style resolution never aborts the pipeline. -/
def resolveStyle (s : String) : Style × List String :=
  match parse_style s with
  | .ok st => (st, [])
  | .error e => (defaultStyle, [styleWarning e])

/-- Concrete options: a subcommand whose output write hit a broken pipe. -/
def c1PipeSubOpt : DeltaOpt :=
  ⟨some (.error .brokenPipe), false, .ok (), none, false, false, .ok ()⟩

/-- Concrete options: the main delta pipeline hit a broken pipe. -/
def c1PipeDeltaOpt : DeltaOpt :=
  ⟨none, false, .ok (), none, false, false, .error .brokenPipe⟩

/-- Concrete options: the main delta pipeline hit a non-broken-pipe output error. -/
def deltaIOFailureOpt : DeltaOpt :=
  ⟨none, false, .ok (), none, false, false, .error (.other ("output error"))⟩

/-- Concrete options: a subcommand hit a non-broken-pipe output error. -/
def subIOFailureOpt : DeltaOpt :=
  ⟨some (.error (.other ("output error"))), false, .ok (), none, false, false, .ok ()⟩

/-- Concrete options: a subcommand completed normally. -/
def okSubOpt : DeltaOpt :=
  ⟨some (.ok ()), false, .ok (), none, false, false, .ok ()⟩

/-- Concrete options: the main delta pipeline completed normally. -/
def okDeltaOpt : DeltaOpt :=
  ⟨none, false, .ok (), none, false, false, .ok ()⟩

/-- Concrete options: two positional files given and they differ. -/
def diffFilesOpt : DeltaOpt :=
  ⟨none, false, .ok (), some ("a.txt", "b.txt"), true, false, .ok ()⟩

/-- Concrete options: no files given and stdin is a terminal. -/
def terminalOpt : DeltaOpt :=
  ⟨none, false, .ok (), none, false, true, .ok ()⟩

/-- A concrete line distance: 0 between equal lines, 6 between distinct ones. -/
def pairDist (a b : Nat) : Nat := if a = b then 0 else 6

/-- A concrete width-2 (wide/CJK) display cluster. -/
def wideCluster : DisplayCluster := ⟨[0x4E00], 2⟩

/-- A concrete width-1 cluster. -/
def narrowA : DisplayCluster := ⟨[97], 1⟩

/-- A concrete width-1 cluster. -/
def narrowB : DisplayCluster := ⟨[98], 1⟩

/-- A concrete width-1 cluster. -/
def narrowC : DisplayCluster := ⟨[99], 1⟩

/-- Helper: a pipeline step does not depend on the cell, and a task write changes
only the cell; hence `out` and `input` after any interleaving are independent of
the initial cell content. -/
theorem runEvents_cell_irrelevant (f : String → String) :
    ∀ (evs : List SysEvent) (c₁ c₂ : Option String) (o i : List String),
      (runEvents f evs ⟨c₁, o, i⟩).out = (runEvents f evs ⟨c₂, o, i⟩).out ∧
      (runEvents f evs ⟨c₁, o, i⟩).input = (runEvents f evs ⟨c₂, o, i⟩).input := by
  intro evs
  induction evs with
  | nil => intro c₁ c₂ o i; exact ⟨rfl, rfl⟩
  | cons e rest ih =>
    intro c₁ c₂ o i
    cases e with
    | taskWrites v =>
      cases c₁ <;> cases c₂ <;> simp only [runEvents, sysStep] <;>
        first
        | exact ⟨trivial, trivial⟩
        | exact ih _ _ o i
    | pipelineStep =>
      cases i with
      | nil => simp only [runEvents, sysStep]; exact ih _ _ o []
      | cons l rest' => simp only [runEvents, sysStep]; exact ih _ _ (o ++ [f l]) rest'

/-- Folding one atom onto a grouped op list adds exactly that atom's minus token
in front of the covered minus tokens. -/
theorem pushAtom_minus {α : Type} (x : DiffAtom α) (ops : List (EditOp α)) :
    minusConcat (pushAtom x ops) = x.minusPart ++ minusConcat ops := by
  rcases x with a | a | a <;> rcases ops with _ | ⟨op, rest⟩ <;>
    first
    | rfl
    | (rcases op with ts | ts | ts | ⟨ms, ps⟩ <;>
        simp [pushAtom, minusConcat, EditOp.minusToks, DiffAtom.minusPart])

/-- Folding one atom onto a grouped op list adds exactly that atom's plus token
in front of the covered plus tokens. -/
theorem pushAtom_plus {α : Type} (x : DiffAtom α) (ops : List (EditOp α)) :
    plusConcat (pushAtom x ops) = x.plusPart ++ plusConcat ops := by
  rcases x with a | a | a <;> rcases ops with _ | ⟨op, rest⟩ <;>
    first
    | rfl
    | (rcases op with ts | ts | ts | ⟨ms, ps⟩ <;>
        simp [pushAtom, plusConcat, EditOp.plusToks, DiffAtom.plusPart])

/-- Grouping atoms into runs preserves the covered minus tokens. -/
theorem groupOps_minus {α : Type} (atoms : List (DiffAtom α)) :
    minusConcat (groupOps atoms) = atomsMinus atoms := by
  induction atoms with
  | nil => rfl
  | cons a rest ih =>
    show minusConcat (pushAtom a (groupOps rest)) = _
    rw [pushAtom_minus, ih]; rfl

/-- Grouping atoms into runs preserves the covered plus tokens. -/
theorem groupOps_plus {α : Type} (atoms : List (DiffAtom α)) :
    plusConcat (groupOps atoms) = atomsPlus atoms := by
  induction atoms with
  | nil => rfl
  | cons a rest ih =>
    show plusConcat (pushAtom a (groupOps rest)) = _
    rw [pushAtom_plus, ih]; rfl

/-- Mapping every token to an `ins` atom covers no minus tokens. -/
theorem atomsMinus_map_ins {α : Type} (ps : List α) :
    atomsMinus (ps.map DiffAtom.ins) = [] := by
  induction ps with
  | nil => rfl
  | cons p rest ih => simpa [atomsMinus, DiffAtom.minusPart] using ih

/-- Mapping every token to an `ins` atom covers exactly the plus tokens. -/
theorem atomsPlus_map_ins {α : Type} (ps : List α) :
    atomsPlus (ps.map DiffAtom.ins) = ps := by
  induction ps with
  | nil => rfl
  | cons p rest ih => simpa [atomsPlus, DiffAtom.plusPart] using ih

/-- Mapping every token to a `del` atom covers exactly the minus tokens. -/
theorem atomsMinus_map_del {α : Type} (ms : List α) :
    atomsMinus (ms.map DiffAtom.del) = ms := by
  induction ms with
  | nil => rfl
  | cons m rest ih => simpa [atomsMinus, DiffAtom.minusPart] using ih

/-- Mapping every token to a `del` atom covers no plus tokens. -/
theorem atomsPlus_map_del {α : Type} (ms : List α) :
    atomsPlus (ms.map DiffAtom.del) = [] := by
  induction ms with
  | nil => rfl
  | cons m rest ih => simpa [atomsPlus, DiffAtom.plusPart] using ih

/-- The atom script covers the minus sequence and the plus sequence exactly. -/
theorem diffAtoms_partition {α : Type} [DecidableEq α] (ms ps : List α) :
    atomsMinus (diffAtoms ms ps) = ms ∧ atomsPlus (diffAtoms ms ps) = ps := by
  induction ms, ps using diffAtoms.induct with
  | case1 ps =>
    simp [diffAtoms, atomsMinus_map_ins, atomsPlus_map_ins]
  | case2 m ms =>
    simp [diffAtoms, atomsMinus, atomsPlus, DiffAtom.minusPart, DiffAtom.plusPart,
      atomsMinus_map_del, atomsPlus_map_del]
  | case3 ms p ps ih =>
    simp [diffAtoms, atomsMinus, atomsPlus, DiffAtom.minusPart, DiffAtom.plusPart, ih.1, ih.2]
  | case4 m ms p ps hne hle ih =>
    simp [diffAtoms, hne, hle, atomsMinus, atomsPlus, DiffAtom.minusPart, DiffAtom.plusPart,
      ih.1, ih.2]
  | case5 m ms p ps hne hnle ih =>
    simp [diffAtoms, hne, hnle, atomsMinus, atomsPlus, DiffAtom.minusPart, DiffAtom.plusPart,
      ih.1, ih.2]

/-- The coalescing post-pass preserves the covered minus tokens. -/
theorem coalesce_minus {α : Type} (k : Nat) (l : List (EditOp α)) :
    minusConcat (coalesceOps k l) = minusConcat l := by
  induction l with
  | nil => rfl
  | cons op rest ih =>
    simp only [coalesceOps]
    by_cases hs : shortEqual k op = true
    · simp only [hs, if_true]
      cases hr : coalesceOps k rest with
      | nil => simp [minusConcat, ← ih, hr]
      | cons next rest' =>
        by_cases hn : next.isEqualOp = true <;>
          simp [hn, minusConcat, mergeOps, EditOp.minusToks, ← ih, hr, List.append_assoc]
    · simp [hs, minusConcat, ih]

/-- The coalescing post-pass preserves the covered plus tokens. -/
theorem coalesce_plus {α : Type} (k : Nat) (l : List (EditOp α)) :
    plusConcat (coalesceOps k l) = plusConcat l := by
  induction l with
  | nil => rfl
  | cons op rest ih =>
    simp only [coalesceOps]
    by_cases hs : shortEqual k op = true
    · simp only [hs, if_true]
      cases hr : coalesceOps k rest with
      | nil => simp [plusConcat, ← ih, hr]
      | cons next rest' =>
        by_cases hn : next.isEqualOp = true <;>
          simp [hn, plusConcat, mergeOps, EditOp.plusToks, ← ih, hr, List.append_assoc]
    · simp [hs, plusConcat, ih]

/-- No merged op is a short equal run. -/
theorem shortEqual_mergeOps {α : Type} (k : Nat) (e n : EditOp α) :
    shortEqual k (mergeOps e n) = false := rfl

/-- The output of the coalescing pass never has a short equal run immediately
followed by a non-equal run. -/
theorem coalesce_chain {α : Type} (k : Nat) (l : List (EditOp α)) :
    List.Chain' (fun a b => shortEqual k a = true → EditOp.isEqualOp b = true)
      (coalesceOps k l) := by
  induction l with
  | nil => exact List.chain'_nil
  | cons op rest ih =>
    simp only [coalesceOps]
    by_cases hs : shortEqual k op = true
    · simp only [hs, if_true]
      cases hr : coalesceOps k rest with
      | nil => simp
      | cons next rest' =>
        rw [hr] at ih
        simp only [hr]
        by_cases hn : next.isEqualOp = true
        · rw [if_pos hn]
          exact List.chain'_cons.mpr ⟨fun _ => hn, ih⟩
        · rw [if_neg hn]
          refine List.chain'_cons'.mpr ⟨?_, ih.tail⟩
          intro y _ hshort
          rw [shortEqual_mergeOps] at hshort
          simp at hshort
    · rw [if_neg hs]
      refine List.chain'_cons'.mpr ⟨?_, ih⟩
      intro y _ hshort
      exact absurd hshort hs

/-- On a list where no short equal run is followed by a non-equal run, the
coalescing pass is the identity. -/
theorem coalesce_fixed {α : Type} (k : Nat) (l : List (EditOp α))
    (h : List.Chain' (fun a b => shortEqual k a = true → EditOp.isEqualOp b = true) l) :
    coalesceOps k l = l := by
  induction l with
  | nil => rfl
  | cons op rest ih =>
    have hrest := ih h.tail
    simp only [coalesceOps, hrest]
    by_cases hs : shortEqual k op = true
    · simp only [hs, if_true]
      cases rest with
      | nil => rfl
      | cons next rest' =>
        have hn : next.isEqualOp = true := (List.chain'_cons.mp h).1 hs
        simp [hn]
    · simp [hs]

/-- Every pair produced from start indices `(i, j)` is bounded below by `(i, j)`. -/
theorem nwPairs_bounds {α β : Type} (d : α → β → Nat) (G : Nat) :
    ∀ (i j : Nat) (ms : List α) (ps : List β),
      ∀ pr ∈ nwPairs d G i j ms ps, i ≤ pr.1 ∧ j ≤ pr.2 := by
  intro i j ms ps
  induction i, j, ms, ps using nwPairs.induct d G with
  | case1 i j ps => simp [nwPairs]
  | case2 i j m ms => simp [nwPairs]
  | case3 i j m ms p ps hdiag ih =>
    intro pr hpr
    rw [nwPairs, if_pos hdiag] at hpr
    rcases List.mem_append.mp hpr with h | h
    · rcases (by split at h <;> simp_all : pr = (i, j)) with rfl
      exact ⟨le_refl _, le_refl _⟩
    · have := ih pr h
      omega
  | case4 i j m ms p ps hdiag hskip ih =>
    intro pr hpr
    rw [nwPairs, if_neg hdiag, if_pos hskip] at hpr
    have := ih pr hpr
    omega
  | case5 i j m ms p ps hdiag hskip ih =>
    intro pr hpr
    rw [nwPairs, if_neg hdiag, if_neg hskip] at hpr
    have := ih pr hpr
    omega

/-- The traceback produces pairs strictly increasing in both coordinates. -/
theorem nwPairs_pairwise {α β : Type} (d : α → β → Nat) (G : Nat) :
    ∀ (i j : Nat) (ms : List α) (ps : List β),
      List.Pairwise (fun a b => a.1 < b.1 ∧ a.2 < b.2) (nwPairs d G i j ms ps) := by
  intro i j ms ps
  induction i, j, ms, ps using nwPairs.induct d G with
  | case1 i j ps => simp [nwPairs]
  | case2 i j m ms => simp [nwPairs]
  | case3 i j m ms p ps hdiag ih =>
    rw [nwPairs, if_pos hdiag]
    split
    · refine List.pairwise_cons.mpr ⟨?_, ih⟩
      intro b hb
      have := nwPairs_bounds d G (i + 1) (j + 1) ms ps b hb
      constructor <;> omega
    · simpa using ih
  | case4 i j m ms p ps hdiag hskip ih =>
    rw [nwPairs, if_neg hdiag, if_pos hskip]
    exact ih
  | case5 i j m ms p ps hdiag hskip ih =>
    rw [nwPairs, if_neg hdiag, if_neg hskip]
    exact ih

/-- From a pairwise relation, any two members of the list are equal or related in
one of the two orders. -/
theorem pairwise_mem_rel {γ : Type} {R : γ → γ → Prop} :
    ∀ {l : List γ}, l.Pairwise R → ∀ {p q : γ}, p ∈ l → q ∈ l →
      p = q ∨ R p q ∨ R q p := by
  intro l h
  induction h with
  | nil => intro p q hp _; simp at hp
  | cons hr _ ih =>
    intro p q hp hq
    rcases List.mem_cons.mp hp with rfl | hp' <;> rcases List.mem_cons.mp hq with rfl | hq'
    · exact Or.inl rfl
    · exact Or.inr (Or.inl (hr q hq'))
    · exact Or.inr (Or.inr (hr p hp'))
    · exact ih hp' hq'

/-- Flattening the wrapped physical lines restores the pending line and the
remaining input: no item is dropped, duplicated, or split. -/
theorem wrapAuxG_join {γ : Type} (w : γ → Nat) (W : Nat) :
    ∀ (l : List γ) (col : Nat) (cur : List γ),
      (wrapAuxG w W l col cur).flatten = cur.reverse ++ l := by
  intro l
  induction l with
  | nil => intro col cur; simp [wrapAuxG]
  | cons c rest ih =>
    intro col cur
    simp only [wrapAuxG]
    split
    · simp [ih]
    · simp [ih]

/-- The wrapping walk commutes with mapping items, provided the width function
factors through the map: the physical-line structure depends only on widths. -/
theorem wrapAuxG_map {γ δ : Type} (w : δ → Nat) (f : γ → δ) (W : Nat) :
    ∀ (l : List γ) (col : Nat) (cur : List γ),
      (wrapAuxG (fun a => w (f a)) W l col cur).map (List.map f)
        = wrapAuxG w W (l.map f) col (cur.map f) := by
  intro l
  induction l with
  | nil => intro col cur; simp [wrapAuxG]
  | cons c rest ih =>
    intro col cur
    simp only [wrapAuxG, List.map_cons]
    have hemp : (cur.map f).isEmpty = cur.isEmpty := by cases cur <;> rfl
    rw [hemp]
    by_cases h : W < col + w (f c) ∧ cur.isEmpty = false
    · rw [if_pos h, if_pos h]
      simp [ih, List.map_reverse]
    · rw [if_neg h, if_neg h]
      simpa using ih (col + w (f c)) (c :: cur)

/-- A write failure stops the pipeline loop without processing further input: if
the sink accepts the writes before index `k + n` that the loop issues and fails
the write at `k + n` with some error, the loop returns that error, the renders of
exactly the first `n` lines, and all input from line `n + 1` on unread. -/
theorem runDelta_stops (f : String → String) (sink : Nat → Except IOErr Unit)
    (e : IOErr) :
    ∀ (input : List String) (k n : Nat),
      (∀ j, j < n → sink (k + j) = .ok ()) → sink (k + n) = .error e →
      n < input.length →
      runDelta f sink k input = (.error e, (input.take n).map f, input.drop (n + 1)) := by
  intro input
  induction input with
  | nil => intro k n _ _ hlen; simp at hlen
  | cons l rest ih =>
    intro k n hok herr hlen
    cases n with
    | zero =>
      have h0 : sink k = .error e := by simpa using herr
      simp [runDelta, h0]
    | succ n =>
      have hk : sink k = .ok () := by simpa using hok 0 (Nat.succ_pos n)
      have hok' : ∀ j, j < n → sink (k + 1 + j) = .ok () := by
        intro j hj
        have := hok (j + 1) (by omega)
        simpa [Nat.add_assoc, Nat.add_comm 1 j] using this
      have herr' : sink (k + 1 + n) = .error e := by
        have : k + 1 + n = k + (n + 1) := by omega
        rw [this]; exact herr
      have hlen' : n < rest.length := by simpa using hlen
      have hrec := ih (k + 1) n hok' herr' hlen'
      simp [runDelta, hk, hrec]

/-- C1: if the output sink closes early (broken pipe) while the program is
writing, the run stops cleanly without processing further input and run_app
returns exit code 0 with nothing on stderr. A broken pipe is never reported as an
error, on subcommand output paths (src/main.rs:121-129) as on the main delta
pipeline path (src/main.rs:171-177); and a sink that breaks at the write of line
`n` makes the pipeline loop stop with BrokenPipe, having rendered exactly the
first `n` lines and leaving every input line beyond the failing one unread — fed
back into run_app, the whole run returns exit code 0. -/
theorem broken_pipe_is_success (o : DeltaOpt) (f : String → String)
    (sink : Nat → Except IOErr Unit) (n : Nat) (input : List String) :
    (o.subcommand = some (.error .brokenPipe) → run_app (.delta o) = (.ok 0, [])) ∧
    (o.subcommand = none → o.show_config = false → o.files = none →
      o.stdinIsTerminal = false → o.deltaResult = .error .brokenPipe →
      run_app (.delta o) = (.ok 0, [])) ∧
    ((∀ j, j < n → sink j = .ok ()) → sink n = .error .brokenPipe →
      n < input.length →
      runDelta f sink 0 input
          = (.error .brokenPipe, (input.take n).map f, input.drop (n + 1)) ∧
      (o.subcommand = none → o.show_config = false → o.files = none →
        o.stdinIsTerminal = false → o.deltaResult = (runDelta f sink 0 input).1 →
        run_app (.delta o) = (.ok 0, []))) := by
  refine ⟨?_, ?_, ?_⟩
  · intro h
    simp [run_app, h]
  · intro h₁ h₂ h₃ h₄ h₅
    simp [run_app, h₁, h₂, h₃, h₄, h₅]
  · intro hok herr hlen
    have hstop := runDelta_stops f sink .brokenPipe input 0 n
      (fun j hj => by simpa using hok j hj) (by simpa using herr) hlen
    refine ⟨hstop, ?_⟩
    intro h₁ h₂ h₃ h₄ h₅
    rw [hstop] at h₅
    simp [run_app, h₁, h₂, h₃, h₄, h₅]

/-- Witness for C1 at concrete inputs: a broken pipe from a subcommand and from
the main delta pipeline both yield exit code 0 and an empty stderr; and on a
four-line input with a sink that accepts two writes and then breaks, the pipeline
stops with BrokenPipe having written two lines, leaving the last line unread. -/
theorem broken_pipe_is_success_witness :
    (c1PipeSubOpt.subcommand = some (.error .brokenPipe) ∧
      run_app (.delta c1PipeSubOpt) = (.ok 0, [])) ∧
    (c1PipeDeltaOpt.subcommand = none ∧ c1PipeDeltaOpt.deltaResult = .error .brokenPipe ∧
      run_app (.delta c1PipeDeltaOpt) = (.ok 0, [])) ∧
    (c1Sink 2 = .error .brokenPipe ∧ 2 < c1Input.length ∧
      runDelta id c1Sink 0 c1Input
          = (.error .brokenPipe, (c1Input.take 2).map id, c1Input.drop 3)) :=
  ⟨⟨rfl, (broken_pipe_is_success c1PipeSubOpt id c1Sink 2 c1Input).1 rfl⟩,
    ⟨rfl, rfl,
      (broken_pipe_is_success c1PipeDeltaOpt id c1Sink 2 c1Input).2.1 rfl rfl rfl rfl rfl⟩,
    ⟨rfl, by decide,
      ((broken_pipe_is_success c1PipeDeltaOpt id c1Sink 2 c1Input).2.2
        (fun j hj => by simp [c1Sink, hj]) rfl (by decide)).1⟩⟩

/-- C2 counterexample: on the main delta pipeline path a non-broken-pipe output
failure ("output error") is printed to stderr but run_app still returns the
success exit code 0 (src/main.rs:171-177) — the failure is reported yet not
fatal, and it does result in a success exit code, contrary to the claim. -/
theorem output_error_not_fatal_counterexample :
    deltaIOFailureOpt.deltaResult = .error (.other ("output error")) ∧
    IOErr.other ("output error") ≠ IOErr.brokenPipe ∧
    run_app (.delta deltaIOFailureOpt) = (.ok 0, ["output error"]) :=
  ⟨rfl, by simp, rfl⟩

/-- C2 (amended): any output I/O failure other than a broken pipe aborts the run
and is reported — never silently swallowed: on subcommand output paths it is fatal
(stderr message, process exit code 2); on the main delta pipeline path the message
is printed to stderr but run_app nevertheless returns the success exit code 0. -/
theorem output_error_reported (o : DeltaOpt) (msg : String) :
    (o.subcommand = some (.error (.other msg)) →
      run_app (.delta o) = (.fatalExit 2, [msg])) ∧
    (o.subcommand = none → o.show_config = false → o.files = none →
      o.stdinIsTerminal = false → o.deltaResult = .error (.other msg) →
      run_app (.delta o) = (.ok 0, [msg])) := by
  constructor
  · intro h
    simp [run_app, h, fatal]
  · intro h₁ h₂ h₃ h₄ h₅
    simp [run_app, h₁, h₂, h₃, h₄, h₅]

/-- Witness for C2 (amended) at concrete inputs: a non-broken-pipe output error is
fatal (exit 2) on the subcommand path and reported-but-exit-0 on the delta path. -/
theorem output_error_reported_witness :
    (subIOFailureOpt.subcommand = some (.error (.other ("output error"))) ∧
      run_app (.delta subIOFailureOpt) = (.fatalExit 2, ["output error"])) ∧
    (deltaIOFailureOpt.deltaResult = .error (.other ("output error")) ∧
      run_app (.delta deltaIOFailureOpt) = (.ok 0, ["output error"])) :=
  ⟨⟨rfl, (output_error_reported subIOFailureOpt ("output error")).1 rfl⟩,
    ⟨rfl, (output_error_reported deltaIOFailureOpt ("output error")).2 rfl rfl rfl rfl rfl⟩⟩

/-- C3: for every computed EditOp sequence of a paired line (shortest edit script
over tokens, grouped into runs, then the coalescing post-pass at any configured
minimum token length), concatenating the covered token runs in order reproduces
the original minus token sequence exactly and, separately, the original plus token
sequence exactly — whole sequence covered, no overlap, no gap. -/
theorem editops_partition {α : Type} [DecidableEq α] (k : Nat) (ms ps : List α) :
    minusConcat (computeEditOps k ms ps) = ms ∧ plusConcat (computeEditOps k ms ps) = ps := by
  constructor
  · rw [computeEditOps, coalesce_minus, groupOps_minus]
    exact (diffAtoms_partition ms ps).1
  · rw [computeEditOps, coalesce_plus, groupOps_plus]
    exact (diffAtoms_partition ms ps).2

/-- Witness for C3 at a concrete paired line (the spec's Scenario A tokens). -/
theorem editops_partition_witness :
    minusConcat (computeEditOps 1 ["foo", "bar"] ["foo", "baz"]) = ["foo", "bar"] ∧
    plusConcat (computeEditOps 1 ["foo", "bar"] ["foo", "baz"]) = ["foo", "baz"] :=
  editops_partition 1 ["foo", "bar"] ["foo", "baz"]

/-- C4: the LinePairer output on any ChangeBlock is non-crossing — whenever
(i₁, j₁) and (i₂, j₂) are both pairs and i₁ < i₂, then j₁ < j₂ — and every minus
or plus line appears in at most one pair: two pairs sharing either coordinate are
the same pair. -/
theorem linePairer_non_crossing {α β : Type} (d : α → β → Nat) (G : Nat)
    (ms : List α) (ps : List β) (p q : Nat × Nat)
    (hp : p ∈ linePairs d G ms ps) (hq : q ∈ linePairs d G ms ps) :
    (p.1 < q.1 → p.2 < q.2) ∧ (p.1 = q.1 → p = q) ∧ (p.2 = q.2 → p = q) := by
  have hpw := nwPairs_pairwise d G 0 0 ms ps
  have tri := pairwise_mem_rel hpw hp hq
  refine ⟨?_, ?_, ?_⟩
  · intro hlt
    rcases tri with rfl | h | h
    · omega
    · exact h.2
    · exact absurd hlt (by omega)
  · intro heq
    rcases tri with rfl | h | h
    · rfl
    · exact absurd heq (by omega)
    · exact absurd heq (by omega)
  · intro heq
    rcases tri with rfl | h | h
    · rfl
    · exact absurd heq (by omega)
    · exact absurd heq (by omega)

/-- Witness for C4 at a concrete ChangeBlock: two similar line pairs are produced
at (0,0) and (1,1), and the non-crossing property holds for them. -/
theorem linePairer_non_crossing_witness :
    (0, 0) ∈ linePairs pairDist 2 [10, 11] [10, 11] ∧
    (1, 1) ∈ linePairs pairDist 2 [10, 11] [10, 11] ∧
    (((0, 0) : Nat × Nat).1 < ((1, 1) : Nat × Nat).1 →
      ((0, 0) : Nat × Nat).2 < ((1, 1) : Nat × Nat).2) := by
  have hlist : linePairs pairDist 2 [10, 11] [10, 11] = [(0, 0), (1, 1)] := by
    simp [linePairs, nwPairs, nwCost, pairDist]
  have h₁ : (0, 0) ∈ linePairs pairDist 2 [10, 11] [10, 11] := by rw [hlist]; simp
  have h₂ : (1, 1) ∈ linePairs pairDist 2 [10, 11] [10, 11] := by rw [hlist]; simp
  exact ⟨h₁, h₂,
    (linePairer_non_crossing pairDist 2 [10, 11] [10, 11] (0, 0) (1, 1) h₁ h₂).1⟩

/-- C5: the EditOp coalescing post-pass is idempotent — for every EditOp list and
every configured minimum token length, applying it twice yields exactly the result
of applying it once. -/
theorem coalesce_idempotent {α : Type} (k : Nat) (l : List (EditOp α)) :
    coalesceOps k (coalesceOps k l) = coalesceOps k l :=
  coalesce_fixed k (coalesceOps k l) (coalesce_chain k l)

/-- Witness for C5 at a concrete EditOp list containing a short equal run. -/
theorem coalesce_idempotent_witness :
    coalesceOps 2 (coalesceOps 2
        [EditOp.delete ["a"], EditOp.equal ["x"], EditOp.insert ["b"]])
      = coalesceOps 2 [EditOp.delete ["a"], EditOp.equal ["x"], EditOp.insert ["b"]] :=
  coalesce_idempotent 2 [EditOp.delete ["a"], EditOp.equal ["x"], EditOp.insert ["b"]]

/-- C6: the wrapper never splits a display cluster across physical lines — the
physical lines flatten back to the input cluster sequence exactly — and a width-2
cluster arriving when the current column is W-1 is emitted entirely on the next
physical line, leaving the current physical line at width W-1, strictly short of
W (the underfill of design). -/
theorem wrapper_never_splits_clusters (W : Nat) (cs : List DisplayCluster)
    (c : DisplayCluster) (rest cur : List DisplayCluster)
    (hW : 1 ≤ W) (hc : c.width = 2) (hcur : cur.isEmpty = false)
    (hcol : lineWidth cur.reverse = W - 1) :
    (wrapLine W cs).flatten = cs ∧
    wrapAuxG DisplayCluster.width W (c :: rest) (W - 1) cur
      = cur.reverse :: wrapAuxG DisplayCluster.width W rest 2 [c] ∧
    lineWidth cur.reverse < W := by
  refine ⟨?_, ?_, ?_⟩
  · simpa using wrapAuxG_join DisplayCluster.width W cs 0 []
  · have hcond : W < (W - 1) + c.width ∧ cur.isEmpty = false := ⟨by omega, hcur⟩
    simp only [wrapAuxG]
    rw [if_pos hcond, hc]
  · omega

/-- Witness for C6 at width W = 4: after three width-1 clusters (column 3 = W-1),
a width-2 wide cluster moves whole to the next physical line, leaving the first
physical line at width 3. -/
theorem wrapper_never_splits_clusters_witness :
    (1 ≤ 4 ∧ wideCluster.width = 2 ∧
      ([narrowC, narrowB, narrowA] : List DisplayCluster).isEmpty = false ∧
      lineWidth ([narrowC, narrowB, narrowA] : List DisplayCluster).reverse = 4 - 1) ∧
    ((wrapLine 4 [narrowA, narrowB, narrowC, wideCluster]).flatten
        = [narrowA, narrowB, narrowC, wideCluster] ∧
      wrapAuxG DisplayCluster.width 4 [wideCluster] (4 - 1) [narrowC, narrowB, narrowA]
        = [narrowA, narrowB, narrowC] :: wrapAuxG DisplayCluster.width 4 [] 2 [wideCluster] ∧
      lineWidth ([narrowC, narrowB, narrowA] : List DisplayCluster).reverse < 4) :=
  ⟨⟨by decide, by decide, by decide, by decide⟩,
    wrapper_never_splits_clusters 4 [narrowA, narrowB, narrowC, wideCluster]
      wideCluster [] [narrowC, narrowB, narrowA]
      (by decide) (by decide) (by decide) (by decide)⟩

/-- C7: style never affects break positions — wrapping a styled line and stripping
the style from each physical line is exactly wrapping the stripped plain line:
break points fall at the same cluster offsets, and style transitions (which carry
zero display width) never move them. -/
theorem style_never_affects_breaks (W : Nat) (l : List (DisplayCluster × Style)) :
    (wrapStyled W l).map stripStyle = wrapLine W (stripStyle l) := by
  unfold wrapStyled wrapLine stripStyle
  exact wrapAuxG_map DisplayCluster.width Prod.fst W l 0 []

/-- C8: a malformed style specification fails with a StyleParseError that the
caller downgrades to the default Style plus one non-fatal warning, while a
well-formed specification resolves to its parsed Style with no warning; style
resolution is total, so the pipeline never aborts on a style misconfiguration. -/
theorem style_error_downgraded (s : String) :
    (∀ e, parse_style s = .error e → resolveStyle s = (defaultStyle, [styleWarning e])) ∧
    (∀ st, parse_style s = .ok st → resolveStyle s = (st, [])) := by
  constructor
  · intro e h
    simp [resolveStyle, h]
  · intro st h
    simp [resolveStyle, h]

/-- Witness for C8 at the spec's Scenario D input: the malformed spec
"fg:not-a-color" parses to a StyleParseError and resolves to the default Style
plus one warning. -/
theorem style_error_downgraded_witness :
    parse_style ("fg:not-a-color") = .error (.badToken ("fg:not-a-color")) ∧
    resolveStyle ("fg:not-a-color")
      = (defaultStyle, [styleWarning (.badToken ("fg:not-a-color"))]) :=
  ⟨rfl, (style_error_downgraded ("fg:not-a-color")).1 (.badToken ("fg:not-a-color")) rfl⟩

/-- C9: the background calling-process task communicates only through the
write-once cell consulted later for diagnostics: for every interleaving of task
and pipeline events and every initial cell content — so whether the task
completes, completes late, or never completes — the pipeline's emitted output and
remaining input are exactly those of the task-free interleaving: the task never
mutates pipeline state, and pipeline progress is never gated on it. -/
theorem background_task_no_pipeline_effect (f : String → String) (evs : List SysEvent)
    (c₁ c₂ : Option String) (o i : List String) :
    (runEvents f evs ⟨c₁, o, i⟩).out
        = (runEvents f (evs.filter SysEvent.isPipelineStep) ⟨c₂, o, i⟩).out ∧
    (runEvents f evs ⟨c₁, o, i⟩).input
        = (runEvents f (evs.filter SysEvent.isPipelineStep) ⟨c₂, o, i⟩).input := by
  induction evs generalizing c₁ c₂ o i with
  | nil => exact ⟨rfl, rfl⟩
  | cons e rest ih =>
    cases e with
    | taskWrites v =>
      have hfil : (SysEvent.taskWrites v :: rest).filter SysEvent.isPipelineStep
          = rest.filter SysEvent.isPipelineStep := by
        simp [List.filter, SysEvent.isPipelineStep]
      rw [hfil]
      cases c₁ <;> simp only [runEvents, sysStep] <;> exact ih _ _ o i
    | pipelineStep =>
      have hfil : (SysEvent.pipelineStep :: rest).filter SysEvent.isPipelineStep
          = SysEvent.pipelineStep :: rest.filter SysEvent.isPipelineStep := by
        simp [List.filter, SysEvent.isPipelineStep]
      rw [hfil]
      cases i with
      | nil => simp only [runEvents, sysStep]; exact ih _ _ o []
      | cons l rest' => simp only [runEvents, sysStep]; exact ih _ _ (o ++ [f l]) rest'

/-- C10: run_app's Ok result is the process exit code, with the convention of the
run_app doc comment (src/main.rs:74-77): 0 for normal completion (version printed,
subcommand succeeded, delta pipeline succeeded), 1 when delta is called on two
positional files that differ, and 2 for a real problem — stdin being a terminal
with no files returns Config::error_exit_code = 2, and `fatal` exits the process
with code 2. -/
theorem run_app_exit_codes (o : DeltaOpt) (fs : String × String) (m msg : String) :
    (run_app (.version m (.ok ())) = (.ok 0, [])) ∧
    (o.subcommand = some (.ok ()) → run_app (.delta o) = (.ok 0, [])) ∧
    (o.subcommand = none → o.show_config = false → o.files = none →
      o.stdinIsTerminal = false → o.deltaResult = .ok () →
      run_app (.delta o) = (.ok 0, [])) ∧
    (o.subcommand = none → o.show_config = false → o.files = some fs →
      o.filesDiffer = true → run_app (.delta o) = (.ok 1, [])) ∧
    (o.subcommand = none → o.show_config = false → o.files = none →
      o.stdinIsTerminal = true →
      run_app (.delta o) = (.ok errorExitCode, [usageMessage]) ∧ errorExitCode = 2) ∧
    (fatal msg = (.fatalExit 2, [msg])) := by
  refine ⟨rfl, ?_, ?_, ?_, ?_, rfl⟩
  · intro h
    simp [run_app, h]
  · intro h₁ h₂ h₃ h₄ h₅
    simp [run_app, h₁, h₂, h₃, h₄, h₅]
  · intro h₁ h₂ h₃ h₄
    simp [run_app, h₁, h₂, h₃, h₄, diffExitCode]
  · intro h₁ h₂ h₃ h₄
    exact ⟨by simp [run_app, h₁, h₂, h₃, h₄], rfl⟩

/-- Witness for C10 at concrete inputs: all five exit-code conventions observed. -/
theorem run_app_exit_codes_witness :
    (run_app (.version ("delta 0.0.0") (.ok ())) = (.ok 0, [])) ∧
    (run_app (.delta okSubOpt) = (.ok 0, [])) ∧
    (run_app (.delta okDeltaOpt) = (.ok 0, [])) ∧
    (run_app (.delta diffFilesOpt) = (.ok 1, [])) ∧
    (run_app (.delta terminalOpt) = (.ok errorExitCode, [usageMessage]) ∧ errorExitCode = 2) ∧
    (fatal ("real problem") = (.fatalExit 2, ["real problem"])) :=
  ⟨(run_app_exit_codes okSubOpt ("a.txt", "b.txt") ("delta 0.0.0") ("real problem")).1,
    (run_app_exit_codes okSubOpt ("a.txt", "b.txt") ("delta 0.0.0") ("real problem")).2.1 rfl,
    (run_app_exit_codes okDeltaOpt ("a.txt", "b.txt") ("delta 0.0.0") ("real problem")).2.2.1
      rfl rfl rfl rfl rfl,
    (run_app_exit_codes diffFilesOpt ("a.txt", "b.txt") ("delta 0.0.0") ("real problem")).2.2.2.1
      rfl rfl rfl rfl,
    (run_app_exit_codes terminalOpt ("a.txt", "b.txt") ("delta 0.0.0") ("real problem")).2.2.2.2.1
      rfl rfl rfl rfl,
    (run_app_exit_codes terminalOpt ("a.txt", "b.txt") ("delta 0.0.0") ("real problem")).2.2.2.2.2⟩
